import Mathlib

/-!
Shallow embedding of `src/exporter.py` (PubSummarizer): the summary-section
parser, the three renderer variants (Markdown / Obsidian / Web), and the
exporter orchestration, together with theorems settling the spec claims.

Strings are processed as `List Char`; Python `str.strip`, `str.split`,
`str.replace`, `str.lower` and `re.sub` with a case-insensitive literal
pattern are embedded as executable list functions below.
-/

/-- Python whitespace characters stripped by `str.strip()` (ASCII range). -/
def isPySpace (c : Char) : Bool :=
  c = ' ' || c = '\t' || c = '\n' || c = '\r' || c = Char.ofNat 11 || c = Char.ofNat 12

/-- Python `str.strip()`: drop whitespace from both ends. -/
def pyStripL (s : List Char) : List Char :=
  ((s.dropWhile isPySpace).reverse.dropWhile isPySpace).reverse

/-- Lists `a` and `b` agree after ASCII lower-casing (used for case-insensitive tests). -/
def lowerEq (a b : List Char) : Bool :=
  a.map Char.toLower == b.map Char.toLower

/-- Case-insensitive test that `s` begins with `pat`; this is
`s.lower().startswith(pat.lower())`, which is also how a case-insensitive
literal regex matches at a position. -/
def ciAt (pat s : List Char) : Bool :=
  (s.map Char.toLower).take pat.length == pat.map Char.toLower

/-- Occurrence test at the head of `s`: case-insensitive when `ci` is true,
exact otherwise. -/
def hitAt (pat : List Char) (ci : Bool) (s : List Char) : Bool :=
  if ci then ciAt pat s else pat.isPrefixOf s

/-- Left-to-right deletion of every (non-overlapping) occurrence of `pat`
in `s`, fuel-indexed to make the recursion structural. -/
def scrubAux (pat : List Char) (ci : Bool) : Nat → List Char → List Char
  | _, [] => []
  | 0, s => s
  | fuel + 1, c :: rest =>
    if hitAt pat ci (c :: rest) then
      scrubAux pat ci fuel (rest.drop (pat.length - 1))
    else
      c :: scrubAux pat ci fuel rest

/-- Delete every occurrence of `pat` in `s` (left-to-right, non-overlapping). -/
def scrub (pat : List Char) (ci : Bool) (s : List Char) : List Char :=
  scrubAux pat ci s.length s

/-- Python case-insensitive regex deletion of the literal pattern `pat` from `s`, as `re.sub` performs with the ignore-case flag. -/
def subCI (pat s : List Char) : List Char := scrub pat true s

/-- Python replacement of every occurrence of the literal `pat` by the empty string. -/
def removeAll (pat s : List Char) : List Char := scrub pat false s

/-- Python `s.split(sep)` for a one-character separator. -/
def pySplitChar (sep : Char) : List Char → List (List Char)
  | [] => [[]]
  | c :: rest =>
    if c = sep then [] :: pySplitChar sep rest
    else
      match pySplitChar sep rest with
      | [] => [[c]]
      | h :: t => (c :: h) :: t

/-- One stored paper record (the `Paper` rows handed over by the store);
`summary` and `pdf_url` are `Option` to model Python `None`. -/
structure Paper where
  title : String
  summary : Option String
  pdf_url : Option String
deriving DecidableEq

/-- Computation of `clean_summary`: strip the bold markers, both the asterisk pair and the underscore pair, as the source does with two replace calls. -/
def cleanList (s : List Char) : List Char :=
  removeAll "__".toList (removeAll "**".toList s)

/-- Embedding of `clean_summary.split` at the bracket: the candidate sections of a summary string. -/
def sectionsOf (s : String) : List (List Char) :=
  pySplitChar '[' (cleanList s.toList)

/-- The candidate sections processed for a paper: none when the summary is
absent or empty (Python truthiness of `paper.summary`). -/
def sectionsOfOpt : Option String → List (List Char)
  | none => []
  | some s => if s = "" then [] else sectionsOf s

/-- Field extraction, the regex substitution followed by a strip, as a character list. -/
def extractFieldL (pat : String) (sec : List Char) : List Char :=
  pyStripL (subCI pat.toList sec)

/-- Field extraction, the regex substitution followed by a strip, as a string. -/
def extractField (pat : String) (sec : List Char) : String :=
  String.mk (extractFieldL pat sec)

/-- Paper-URL line of the Markdown renderer (with the
truthiness test on `paper.pdf_url`). -/
def urlPart : Option String → String
  | none => ""
  | some u => if u = "" then "" else "**Paper URL**: [" ++ u ++ "](" ++ u ++ ")\n\n"

/-- One candidate section rendered by the loop of `MarkdownExporter._format_paper`. -/
def mdSection (sec : List Char) : String :=
  if ciAt "topics:]".toList sec then
    "### Topics\n\n" ++ extractField "Topics:]" sec ++ "\n\n"
  else if ciAt "tl;dr:]".toList sec then
    "### TL;DR\n\n" ++ extractField "TL;DR:]" sec ++ "\n\n"
  else if ciAt "summary:]".toList sec then
    "### Summary\n\n" ++ extractField "Summary:]" sec ++ "\n\n"
  else ""

/-- Embedding of `MarkdownExporter._format_paper`. -/
def mdFormatPaper (p : Paper) : String :=
  "## " ++ p.title ++ "\n\n"
    ++ String.join ((sectionsOfOpt p.summary).map mdSection)
    ++ urlPart p.pdf_url
    ++ "---\n\n"

/-- Python `str.lower()` (ASCII range). -/
def pyLower (s : String) : String :=
  String.mk (s.toList.map Char.toLower)

/-- Case-insensitive sort key `x.title.lower()` used by all three renderers. -/
def titleKey (p : Paper) : String :=
  pyLower p.title

/-- The order `sorted(papers, key=lambda x: x.title.lower())` sorts by. -/
def keyLe (a b : Paper) : Prop := titleKey a ≤ titleKey b

instance : DecidableRel keyLe :=
  fun a b => inferInstanceAs (Decidable (titleKey a ≤ titleKey b))

instance : IsTotal Paper keyLe :=
  ⟨fun a b => le_total (titleKey a) (titleKey b)⟩

instance : IsTrans Paper keyLe :=
  ⟨fun _ _ _ => le_trans⟩

/-- Embedding of the stable `sorted(papers, key=lambda x: x.title.lower())` (a stable sort, so any
stable sorting algorithm by the same key is extensionally identical). -/
def pySorted (papers : List Paper) : List Paper :=
  List.insertionSort keyLe papers

/-- Header lines of `MarkdownExporter.generate_markdown`; `now` is the frozen
clock string the source formats from the current time. -/
def mdHeader (title now : String) : String :=
  "# " ++ title ++ "\n\n*Generated on " ++ now
    ++ " by [PubSummarizer](https://github.com/Logan-Lin/PubSummarizer)*\n\n"

/-- Embedding of `MarkdownExporter.generate_markdown`. -/
def generate_markdown (papers : List Paper) (title now : String) : String :=
  mdHeader title now ++ String.join ((pySorted papers).map mdFormatPaper)

/-- Obsidian topic tag: the hash character followed by the topic with spaces turned into hyphens, apostrophes removed, and the result lower-cased. -/
def obsSlugTag (t : String) : String :=
  "#" ++ String.mk
    (((t.toList.map fun c => if c = ' ' then '-' else c).filter
        fun c => !(c = Char.ofNat 39)).map Char.toLower)

/-- The topics list: a split on commas with each element stripped, as strings. -/
def splitTopics (topics : List Char) : List String :=
  (pySplitChar ',' topics).map fun t => String.mk (pyStripL t)

/-- One candidate section rendered by the loop of `ObsidianExporter._format_paper`. -/
def obsSection (sec : List Char) : String :=
  if ciAt "topics:]".toList sec then
    "**Topics:** "
      ++ String.intercalate ", " ((splitTopics (extractFieldL "Topics:]" sec)).map obsSlugTag)
      ++ "\n\n"
  else if ciAt "tl;dr:]".toList sec then
    "#### TL;DR\n\n" ++ extractField "TL;DR:]" sec ++ "\n\n"
  else if ciAt "summary:]".toList sec then
    "#### Summary\n\n" ++ extractField "Summary:]" sec ++ "\n\n"
  else ""

/-- Embedding of `ObsidianExporter._format_paper`. -/
def obsFormatPaper (p : Paper) : String :=
  "---\n\n### " ++ p.title ++ "\n\n"
    ++ String.join ((sectionsOfOpt p.summary).map obsSection)
    ++ (match p.pdf_url with
        | none => ""
        | some u => if u = "" then "" else "📄 [Paper Link](" ++ u ++ ")\n\n")

/-- Header of `ObsidianExporter.generate_markdown` (front matter + attribution). -/
def obsHeader (title : String) : String :=
  "---\ntitle: " ++ title
    ++ "\n---\n\n*Generated by [PubSummarizer](https://github.com/Insights-Ac/PubSummarizer)*\n\n"

/-- Embedding of `ObsidianExporter.generate_markdown`. -/
def obs_generate_markdown (papers : List Paper) (title : String) : String :=
  obsHeader title ++ String.join ((pySorted papers).map obsFormatPaper)

/-- The JSON-friendly `paper_dict` built by `WebExporter.generate_html`. -/
structure PaperDict where
  title : String
  pdf_url : Option String
  topics : List String
  tldr : String
  summary : String
deriving DecidableEq

/-- The topics value assigned by the web loop: the comma-split of the
extracted field with every element stripped. -/
def webTopics (sec : List Char) : List String :=
  splitTopics (extractFieldL "Topics:]" sec)

/-- One step of the section loop of `WebExporter.generate_html`: the dictionary
assignment performed for one candidate section. -/
def webApply (d : PaperDict) (sec : List Char) : PaperDict :=
  if ciAt "topics:]".toList sec then
    { d with topics := webTopics sec }
  else if ciAt "tl;dr:]".toList sec then
    { d with tldr := extractField "TL;DR:]" sec }
  else if ciAt "summary:]".toList sec then
    { d with summary := extractField "Summary:]" sec }
  else d

/-- The `paper_dict` produced for one paper by `WebExporter.generate_html`. -/
def webPaperDict (p : Paper) : PaperDict :=
  (sectionsOfOpt p.summary).foldl webApply
    { title := p.title, pdf_url := p.pdf_url, topics := [], tldr := "", summary := "" }

/-- The `papers_data` array serialized into the page, in render order. -/
def webPapersData (papers : List Paper) : List PaperDict :=
  (pySorted papers).map webPaperDict

/-- External side effects an export invocation performs, in order: one store
query (`db.get_papers`), the recursive parent-directory creation,
and the whole-file write. -/
inductive Effect where
  | queryStore
  | mkdirParents (output_path : String)
  | writeFile (output_path : String) (content : String)
  | writeHtml (output_path : String) (data : List PaperDict) (title : String)
deriving DecidableEq

/-- The error message of the empty-result `ValueError`. -/
def noRecordsMsg : String := "No papers found in the database with the given filters"

/-- Embedding of `MarkdownExporter.export_to_file`, with the store query result passed in
and the effects recorded as a trace. -/
def export_to_file_md (storePapers : List Paper) (output_path title now : String) :
    Except String Unit × List Effect :=
  if storePapers.isEmpty then
    (Except.error noRecordsMsg, [Effect.queryStore])
  else
    (Except.ok (),
      [Effect.queryStore, Effect.mkdirParents output_path,
        Effect.writeFile output_path (generate_markdown storePapers title now)])

/-- Embedding of `ObsidianExporter.export_to_file`. -/
def export_to_file_obs (storePapers : List Paper) (output_path title : String) :
    Except String Unit × List Effect :=
  if storePapers.isEmpty then
    (Except.error noRecordsMsg, [Effect.queryStore])
  else
    (Except.ok (),
      [Effect.queryStore, Effect.mkdirParents output_path,
        Effect.writeFile output_path (obs_generate_markdown storePapers title)])

/-- Embedding of `WebExporter.export_to_file`. The written page is a fixed template with
only the title and the serialized `papers_data` array substituted in, so the
write is recorded by those two determining inputs. -/
def export_to_file_web (storePapers : List Paper) (output_path title : String) :
    Except String Unit × List Effect :=
  if storePapers.isEmpty then
    (Except.error noRecordsMsg, [Effect.queryStore])
  else
    (Except.ok (),
      [Effect.queryStore, Effect.mkdirParents output_path,
        Effect.writeHtml output_path (webPapersData storePapers) title])

/-- The `ValueError` message for an unrecognized format selector. -/
def unsupportedMsg (format : String) : String :=
  "Unsupported format: " ++ format ++ ". Use \x27markdown\x27, \x27obsidian\x27, or \x27html\x27"

/-- Embedding of `export_papers`: dispatch on the lower-cased selector, then delegate to the
selected exporter. An unrecognized selector raises before any store query or
file I/O, hence the empty effect trace. -/
def export_papers (storePapers : List Paper) (format output_path title now : String) :
    Except String Unit × List Effect :=
  if pyLower format = "markdown" then export_to_file_md storePapers output_path title now
  else if pyLower format = "obsidian" then export_to_file_obs storePapers output_path title
  else if pyLower format = "html" then export_to_file_web storePapers output_path title
  else (Except.error (unsupportedMsg format), [])

/-- Number of (possibly overlapping) occurrences of `pat` in `s`. -/
def countOcc (pat : List Char) : List Char → Nat
  | [] => 0
  | c :: rest => (if pat.isPrefixOf (c :: rest) then 1 else 0) + countOcc pat rest

/-- Number of occurrences of the substring `pat` in the string `s`. -/
def countSub (pat s : String) : Nat := countOcc pat.toList s.toList

/-- No occurrence of `pat` starts inside `s` when `s` is followed by `t`
(scanning `s ++ t` position by position through `s`). -/
def noHitB (pat : List Char) (ci : Bool) : List Char → List Char → Bool
  | [], _ => true
  | c :: s, t => !(hitAt pat ci (c :: (s ++ t))) && noHitB pat ci s t

/-- The last candidate section that case-insensitively starts with `label`. -/
def lastLabeled (label : String) : List (List Char) → Option (List Char)
  | [] => none
  | sec :: rest =>
    match lastLabeled label rest with
    | some r => some r
    | none => if ciAt label.toList sec then some sec else none

/-- The character list of `[L1 a, b[L2 x[L3 y` where the `Li` stand for the
three section labels in arbitrary casing. -/
def threeSecs (L1 L2 L3 : List Char) : List Char :=
  ('[' :: (L1 ++ " a, b".toList))
    ++ (('[' :: (L2 ++ " x".toList)) ++ ('[' :: (L3 ++ " y".toList)))

lemma scrubAux_nil (pat : List Char) (ci : Bool) (n : Nat) :
    scrubAux pat ci n [] = [] := by
  cases n <;> rfl

lemma scrubAux_cons (pat : List Char) (ci : Bool) (fuel : Nat) (c : Char) (rest : List Char) :
    scrubAux pat ci (fuel + 1) (c :: rest) =
      if hitAt pat ci (c :: rest) then
        scrubAux pat ci fuel (rest.drop (pat.length - 1))
      else
        c :: scrubAux pat ci fuel rest := rfl

lemma hitAt_true (pat s : List Char) : hitAt pat true s = ciAt pat s := rfl

lemma hitAt_false (pat s : List Char) : hitAt pat false s = pat.isPrefixOf s := rfl

lemma scrubAux_fuel (pat : List Char) (ci : Bool) :
    ∀ (n m : Nat) (s : List Char), s.length ≤ n → s.length ≤ m →
      scrubAux pat ci n s = scrubAux pat ci m s := by
  intro n
  induction n with
  | zero =>
    intro m s hn _
    have hs : s = [] := List.eq_nil_of_length_eq_zero (Nat.le_zero.mp hn)
    subst hs
    simp [scrubAux_nil]
  | succ n ih =>
    intro m s hn hm
    cases s with
    | nil => simp [scrubAux_nil]
    | cons c rest =>
      cases m with
      | zero => simp at hm
      | succ m' =>
        have hn' : rest.length ≤ n := by simp at hn; omega
        have hm' : rest.length ≤ m' := by simp at hm; omega
        have hd : (rest.drop (pat.length - 1)).length ≤ rest.length := by
          rw [List.length_drop]; omega
        rw [scrubAux_cons, scrubAux_cons]
        by_cases h : hitAt pat ci (c :: rest) = true
        · rw [if_pos h, if_pos h]
          exact ih m' _ (le_trans hd hn') (le_trans hd hm')
        · rw [if_neg h, if_neg h]
          exact congrArg (c :: ·) (ih m' rest hn' hm')

lemma scrub_walk (pat : List Char) (ci : Bool) :
    ∀ (s t : List Char), noHitB pat ci s t = true →
      scrub pat ci (s ++ t) = s ++ scrub pat ci t := by
  intro s
  induction s with
  | nil => intro t _; simp
  | cons c s' ih =>
    intro t h
    rw [noHitB, Bool.and_eq_true, Bool.not_eq_true'] at h
    obtain ⟨h1, h2⟩ := h
    show scrubAux pat ci ((c :: s' ++ t).length) (c :: s' ++ t) = (c :: s') ++ scrub pat ci t
    rw [List.cons_append, List.length_cons, scrubAux_cons, if_neg (by simp [h1])]
    rw [show scrubAux pat ci (s' ++ t).length (s' ++ t) = scrub pat ci (s' ++ t) from rfl]
    rw [ih t h2, List.cons_append]

lemma scrub_id (pat : List Char) (ci : Bool) (s : List Char)
    (h : noHitB pat ci s [] = true) : scrub pat ci s = s := by
  have h2 := scrub_walk pat ci s [] h
  simpa [scrub, scrubAux_nil] using h2

lemma scrub_consume (pat : List Char) (ci : Bool) (L r : List Char)
    (hne : pat ≠ []) (hlen : L.length = pat.length)
    (hhit : hitAt pat ci (L ++ r) = true) :
    scrub pat ci (L ++ r) = scrub pat ci r := by
  cases L with
  | nil =>
    simp at hlen
    exact absurd (List.length_eq_zero.mp hlen.symm) hne
  | cons c L' =>
    have hk : pat.length - 1 = L'.length := by
      rw [← hlen]; simp
    rw [List.cons_append] at hhit
    show scrubAux pat ci ((c :: L' ++ r).length) (c :: L' ++ r) = scrub pat ci r
    rw [List.cons_append, List.length_cons, scrubAux_cons, if_pos hhit]
    rw [hk, List.drop_left]
    exact scrubAux_fuel pat ci _ r.length r (by simp) le_rfl

lemma scrub_id_head (c0 : Char) (pr : List Char) :
    ∀ s : List Char, c0 ∉ s → scrub (c0 :: pr) false s = s := by
  intro s
  induction s with
  | nil => intro _; simp [scrub, scrubAux_nil]
  | cons c rest ih =>
    intro h
    have hne : ¬(c0 = c) := fun e => h (e ▸ List.mem_cons_self c rest)
    have h2 : c0 ∉ rest := fun hm => h (List.mem_cons_of_mem c hm)
    have hhit : hitAt (c0 :: pr) false (c :: rest) = false := by
      simp [hitAt, List.isPrefixOf, hne]
    show scrubAux (c0 :: pr) false ((c :: rest).length) (c :: rest) = c :: rest
    rw [List.length_cons, scrubAux_cons, if_neg (by simp [hhit])]
    exact congrArg (c :: ·) (ih h2)

lemma mem_scrubAux (pat : List Char) (ci : Bool) :
    ∀ (n : Nat) (s : List Char) (c : Char), c ∈ scrubAux pat ci n s → c ∈ s := by
  intro n
  induction n with
  | zero =>
    intro s c h
    cases s with
    | nil => simp [scrubAux_nil] at h
    | cons a rest => exact h
  | succ n ih =>
    intro s c h
    cases s with
    | nil => simp [scrubAux_nil] at h
    | cons a rest =>
      rw [scrubAux_cons] at h
      by_cases hh : hitAt pat ci (a :: rest) = true
      · rw [if_pos hh] at h
        exact List.mem_cons_of_mem a (List.drop_subset _ _ (ih _ c h))
      · rw [if_neg hh] at h
        rcases List.mem_cons.mp h with h1 | h2
        · exact h1 ▸ List.mem_cons_self a rest
        · exact List.mem_cons_of_mem a (ih rest c h2)

lemma mem_cleanList {c : Char} {s : List Char} (h : c ∈ cleanList s) : c ∈ s :=
  mem_scrubAux _ _ _ _ _ (mem_scrubAux _ _ _ _ _ h)

lemma pySplitChar_ne_nil (sep : Char) : ∀ s : List Char, pySplitChar sep s ≠ [] := by
  intro s
  induction s with
  | nil => simp [pySplitChar]
  | cons c rest ih =>
    simp only [pySplitChar]
    split
    · simp
    · split
      · simp
      · simp

lemma pySplitChar_cons_sep (sep : Char) (rest : List Char) :
    pySplitChar sep (sep :: rest) = [] :: pySplitChar sep rest := by
  simp [pySplitChar]

lemma pySplitChar_of_not_mem (sep : Char) :
    ∀ s : List Char, sep ∉ s → pySplitChar sep s = [s] := by
  intro s
  induction s with
  | nil => intro _; rfl
  | cons c rest ih =>
    intro h
    have h1 : ¬(c = sep) := fun e => h (by simp [e])
    have h2 : sep ∉ rest := fun hm => h (List.mem_cons_of_mem c hm)
    simp only [pySplitChar, if_neg h1, ih h2]

lemma pySplitChar_append (sep : Char) :
    ∀ (a r : List Char), sep ∉ a →
      pySplitChar sep (a ++ sep :: r) = a :: pySplitChar sep r := by
  intro a
  induction a with
  | nil => intro r _; simp [pySplitChar]
  | cons c a' ih =>
    intro r h
    have h1 : ¬(c = sep) := fun e => h (by simp [e])
    have h2 : sep ∉ a' := fun hm => h (List.mem_cons_of_mem c hm)
    rw [List.cons_append]
    simp only [pySplitChar, if_neg h1, ih r h2]

lemma length_of_lowerEq {L pat : List Char}
    (h : L.map Char.toLower = pat.map Char.toLower) : L.length = pat.length := by
  have h2 := congrArg List.length h
  simpa using h2

lemma ciAt_append (pat L r : List Char)
    (h : L.map Char.toLower = pat.map Char.toLower) :
    ciAt pat (L ++ r) = true := by
  have hlen : (L.map Char.toLower).length = pat.length := by
    rw [h]; simp
  rw [ciAt, List.map_append, List.take_left' hlen, h]
  exact beq_self_eq_true _

lemma ciAt_false_of_ciAt (p q s : List Char)
    (hne : (p.map Char.toLower).take (min p.length q.length)
         ≠ (q.map Char.toLower).take (min p.length q.length))
    (hq : ciAt q s = true) : ciAt p s = false := by
  rw [ciAt, beq_iff_eq] at hq
  rw [ciAt, beq_eq_false_iff_ne]
  intro hp
  have e1 : (p.map Char.toLower).take (min p.length q.length)
      = (s.map Char.toLower).take (min p.length q.length) := by
    rw [← hp, List.take_take, Nat.min_eq_left (Nat.min_le_left _ _)]
  have e2 : (q.map Char.toLower).take (min p.length q.length)
      = (s.map Char.toLower).take (min p.length q.length) := by
    rw [← hq, List.take_take, Nat.min_eq_left (Nat.min_le_right _ _)]
  exact hne (e1.trans e2.symm)

lemma not_mem_of_lower {L pat : List Char} (h : L.map Char.toLower = pat) (c : Char)
    (hc : c.toLower ∉ pat) : c ∉ L :=
  fun hm => hc (h ▸ List.mem_map_of_mem Char.toLower hm)

lemma mk_ne_empty (c : Char) (l : List Char) : String.mk (c :: l) ≠ "" := by
  intro h
  have h2 : c :: l = ([] : List Char) := congrArg String.data h
  exact List.cons_ne_nil c l h2

lemma join_all_empty : ∀ l : List String, (∀ x ∈ l, x = "") → String.join l = "" := by
  have aux : ∀ (l : List String) (acc : String), (∀ x ∈ l, x = "") →
      l.foldl (· ++ ·) acc = acc := by
    intro l
    induction l with
    | nil => intro acc _; rfl
    | cons a t ih =>
      intro acc h
      have ha : a = "" := h a (List.mem_cons_self a t)
      rw [List.foldl_cons, ha]
      rw [show acc ++ "" = acc from by simp]
      exact ih acc fun x hx => h x (List.mem_cons_of_mem a hx)
  intro l h
  exact aux l "" h

lemma webApply_nil (d : PaperDict) : webApply d [] = d := by
  rw [webApply, if_neg (by decide), if_neg (by decide), if_neg (by decide)]

lemma webApply_topics_unchanged {d : PaperDict} {sec : List Char}
    (h : ciAt "topics:]".toList sec = false) : (webApply d sec).topics = d.topics := by
  rw [webApply, if_neg (by rw [h]; decide)]
  split
  · rfl
  · split
    · rfl
    · rfl

lemma webApply_tldr_unchanged {d : PaperDict} {sec : List Char}
    (h : ciAt "tl;dr:]".toList sec = false) : (webApply d sec).tldr = d.tldr := by
  rw [webApply]
  split
  · rfl
  · rw [if_neg (by rw [h]; decide)]
    split
    · rfl
    · rfl

lemma webApply_summary_unchanged {d : PaperDict} {sec : List Char}
    (h : ciAt "summary:]".toList sec = false) : (webApply d sec).summary = d.summary := by
  rw [webApply]
  split
  · rfl
  · split
    · rfl
    · rw [if_neg (by rw [h]; decide)]

lemma foldl_topics (secs : List (List Char)) :
    ∀ d : PaperDict, (secs.foldl webApply d).topics =
      match lastLabeled "topics:]" secs with
      | some sec => webTopics sec
      | none => d.topics := by
  induction secs with
  | nil => intro d; rfl
  | cons sec rest ih =>
    intro d
    rw [List.foldl_cons, ih (webApply d sec)]
    show _ = (match (match lastLabeled "topics:]" rest with
      | some r => some r
      | none => if ciAt "topics:]".toList sec then some sec else none : Option (List Char)) with
      | some s => webTopics s
      | none => d.topics)
    cases hl : lastLabeled "topics:]" rest with
    | some r => rfl
    | none =>
      by_cases hg : ciAt "topics:]".toList sec = true
      · simp only [if_pos hg]
        rw [webApply, if_pos hg]
      · have hgf : ciAt "topics:]".toList sec = false := by simpa using hg
        simp only [if_neg hg]
        exact webApply_topics_unchanged hgf

lemma foldl_tldr (secs : List (List Char)) :
    ∀ d : PaperDict, (secs.foldl webApply d).tldr =
      match lastLabeled "tl;dr:]" secs with
      | some sec => extractField "TL;DR:]" sec
      | none => d.tldr := by
  induction secs with
  | nil => intro d; rfl
  | cons sec rest ih =>
    intro d
    rw [List.foldl_cons, ih (webApply d sec)]
    show _ = (match (match lastLabeled "tl;dr:]" rest with
      | some r => some r
      | none => if ciAt "tl;dr:]".toList sec then some sec else none : Option (List Char)) with
      | some s => extractField "TL;DR:]" s
      | none => d.tldr)
    cases hl : lastLabeled "tl;dr:]" rest with
    | some r => rfl
    | none =>
      by_cases hg : ciAt "tl;dr:]".toList sec = true
      · have hnt : ciAt "topics:]".toList sec = false :=
          ciAt_false_of_ciAt _ _ _ (by decide) hg
        simp only [if_pos hg]
        rw [webApply, if_neg (by rw [hnt]; decide), if_pos hg]
      · have hgf : ciAt "tl;dr:]".toList sec = false := by simpa using hg
        simp only [if_neg hg]
        exact webApply_tldr_unchanged hgf

lemma foldl_summary (secs : List (List Char)) :
    ∀ d : PaperDict, (secs.foldl webApply d).summary =
      match lastLabeled "summary:]" secs with
      | some sec => extractField "Summary:]" sec
      | none => d.summary := by
  induction secs with
  | nil => intro d; rfl
  | cons sec rest ih =>
    intro d
    rw [List.foldl_cons, ih (webApply d sec)]
    show _ = (match (match lastLabeled "summary:]" rest with
      | some r => some r
      | none => if ciAt "summary:]".toList sec then some sec else none : Option (List Char)) with
      | some s => extractField "Summary:]" s
      | none => d.summary)
    cases hl : lastLabeled "summary:]" rest with
    | some r => rfl
    | none =>
      by_cases hg : ciAt "summary:]".toList sec = true
      · have hnt : ciAt "topics:]".toList sec = false :=
          ciAt_false_of_ciAt _ _ _ (by decide) hg
        have hntl : ciAt "tl;dr:]".toList sec = false :=
          ciAt_false_of_ciAt _ _ _ (by decide) hg
        simp only [if_pos hg]
        rw [webApply, if_neg (by rw [hnt]; decide), if_neg (by rw [hntl]; decide), if_pos hg]
      · have hgf : ciAt "summary:]".toList sec = false := by simpa using hg
        simp only [if_neg hg]
        exact webApply_summary_unchanged hgf

lemma webTopics_ne_nil (sec : List Char) : webTopics sec ≠ [] := by
  rw [webTopics, splitTopics]
  intro h
  rw [List.map_eq_nil_iff] at h
  exact pySplitChar_ne_nil ',' _ h

lemma foldl_topics_nil (secs : List (List Char)) :
    ∀ d : PaperDict, (secs.foldl webApply d).topics = [] →
      d.topics = [] ∧ ∀ sec ∈ secs, ciAt "topics:]".toList sec = false := by
  induction secs with
  | nil => intro d h; exact ⟨h, by simp⟩
  | cons sec rest ih =>
    intro d h
    rw [List.foldl_cons] at h
    obtain ⟨h1, h2⟩ := ih (webApply d sec) h
    by_cases hg : ciAt "topics:]".toList sec = true
    · have he : (webApply d sec).topics = webTopics sec := by
        rw [webApply, if_pos hg]
      exact absurd (he.symm.trans h1) (webTopics_ne_nil sec)
    · have hgf : ciAt "topics:]".toList sec = false := by simpa using hg
      have hd : d.topics = [] := by
        rw [← h1, webApply_topics_unchanged hgf]
      refine ⟨hd, ?_⟩
      intro s hs
      rcases List.mem_cons.mp hs with rfl | hs'
      · exact hgf
      · exact h2 s hs'

lemma mdFormatPaper_of_no_match (p : Paper)
    (h : ∀ sec ∈ sectionsOfOpt p.summary,
      ciAt "topics:]".toList sec = false ∧ ciAt "tl;dr:]".toList sec = false ∧
        ciAt "summary:]".toList sec = false) :
    mdFormatPaper p = "## " ++ p.title ++ "\n\n" ++ urlPart p.pdf_url ++ "---\n\n" := by
  rw [mdFormatPaper]
  have hj : String.join ((sectionsOfOpt p.summary).map mdSection) = "" := by
    apply join_all_empty
    intro x hx
    rcases List.mem_map.mp hx with ⟨sec, hsec, rfl⟩
    rcases h sec hsec with ⟨h1, h2, h3⟩
    rw [mdSection, if_neg (by rw [h1]; decide), if_neg (by rw [h2]; decide),
      if_neg (by rw [h3]; decide)]
  rw [hj]
  simp

/-- C1 (corrected): in the browsable-page variant each serialized field
reflects only the last section matching its label (a later assignment
overwrites an earlier one), while in the plain-document and note-app variants
every matching section appends its own subsection, so a twice-matched label
yields two subsections. -/
theorem claim1_amended :
    (∀ (secs : List (List Char)) (d : PaperDict),
      ((secs.foldl webApply d).topics =
        match lastLabeled "topics:]" secs with
        | some sec => webTopics sec
        | none => d.topics) ∧
      ((secs.foldl webApply d).tldr =
        match lastLabeled "tl;dr:]" secs with
        | some sec => extractField "TL;DR:]" sec
        | none => d.tldr) ∧
      ((secs.foldl webApply d).summary =
        match lastLabeled "summary:]" secs with
        | some sec => extractField "Summary:]" sec
        | none => d.summary)) ∧
    countSub "### Topics" (mdFormatPaper ⟨"T", some "[Topics:] a[Topics:] b", none⟩) = 2 ∧
    countSub "**Topics:** " (obsFormatPaper ⟨"T", some "[Topics:] a[Topics:] b", none⟩) = 2 :=
  ⟨fun secs d => ⟨foldl_topics secs d, foldl_tldr secs d, foldl_summary secs d⟩,
    by decide, by decide⟩

/-- C1 counterexample to the claim as stated: in the plain-document variant a
summary whose sections match the topics label twice renders two `### Topics`
subsections, not exactly one reflecting only the last match. -/
theorem claim1_counterexample :
    countSub "### Topics" (mdFormatPaper ⟨"T", some "[Topics:] a[Topics:] b", none⟩) = 2 ∧
    countSub "### Topics" (mdFormatPaper ⟨"T", some "[Topics:] a[Topics:] b", none⟩) ≠ 1 := by
  decide

/-- C2 (corrected): a summary string with no `[` yields a single candidate
section, the whole markup-stripped string itself; all parsed fields are empty
and nothing is rendered provided that single section does not itself
case-insensitively start with one of the three labels. -/
theorem claim2_amended (t : String) (u : Option String) (s : String)
    (hbr : '[' ∉ s.toList)
    (hlab : ciAt "topics:]".toList (cleanList s.toList) = false ∧
            ciAt "tl;dr:]".toList (cleanList s.toList) = false ∧
            ciAt "summary:]".toList (cleanList s.toList) = false) :
    webPaperDict ⟨t, some s, u⟩ = ⟨t, u, [], "", ""⟩ ∧
    mdFormatPaper ⟨t, some s, u⟩ = "## " ++ t ++ "\n\n" ++ urlPart u ++ "---\n\n" := by
  by_cases hs : s = ""
  · subst hs
    refine ⟨rfl, ?_⟩
    exact mdFormatPaper_of_no_match ⟨t, some "", u⟩ (by intro sec hsec; simp [sectionsOfOpt] at hsec)
  · have hnomem : '[' ∉ cleanList s.toList := fun hm => hbr (mem_cleanList hm)
    have hsec : sectionsOfOpt (some s) = [cleanList s.toList] := by
      rw [sectionsOfOpt, if_neg hs, sectionsOf]
      exact pySplitChar_of_not_mem '[' _ hnomem
    constructor
    · show (sectionsOfOpt (some s)).foldl webApply ⟨t, u, [], "", ""⟩ = _
      rw [hsec, List.foldl_cons, List.foldl_nil, webApply,
        if_neg (by rw [hlab.1]; decide), if_neg (by rw [hlab.2.1]; decide),
        if_neg (by rw [hlab.2.2]; decide)]
    · apply mdFormatPaper_of_no_match
      intro sec hsecm
      rw [hsec] at hsecm
      simp only [List.mem_singleton] at hsecm
      subst hsecm
      exact hlab

/-- C2 witness at a concrete bracket-free summary. -/
theorem claim2_witness :
    webPaperDict ⟨"T", some "no brackets here", none⟩ = ⟨"T", none, [], "", ""⟩ ∧
    mdFormatPaper ⟨"T", some "no brackets here", none⟩
      = "## " ++ "T" ++ "\n\n" ++ urlPart none ++ "---\n\n" :=
  claim2_amended "T" none "no brackets here" (by decide) (by decide)

/-- C2 counterexample to the claim as stated: `"Summary:] hi"` contains no `[`
yet parses to a non-empty summary field, because the whole string is itself a
candidate section starting with the summary label. -/
theorem claim2_counterexample :
    '[' ∉ "Summary:] hi".toList ∧
    (webPaperDict ⟨"T", some "Summary:] hi", none⟩).summary = "hi" ∧
    (webPaperDict ⟨"T", some "Summary:] hi", none⟩).summary ≠ "" := by
  decide

/-- C3 (corrected): the plain-document renderer omits the Topics/TL;DR/Summary
subsections exactly when no candidate section matches the corresponding label
(the paper heading is retained); a matching section whose remaining content is
empty still produces its subheading, so omission is keyed on the absence of a
match, not on emptiness of the parsed field. -/
theorem claim3_amended (p : Paper)
    (h : ∀ sec ∈ sectionsOfOpt p.summary,
      ciAt "topics:]".toList sec = false ∧ ciAt "tl;dr:]".toList sec = false ∧
        ciAt "summary:]".toList sec = false) :
    mdFormatPaper p = "## " ++ p.title ++ "\n\n" ++ urlPart p.pdf_url ++ "---\n\n" :=
  mdFormatPaper_of_no_match p h

/-- C3 witness at a concrete label-free record. -/
theorem claim3_witness :
    mdFormatPaper ⟨"Alpha", some "plain text", some "http://x/a.pdf"⟩
      = "## " ++ "Alpha" ++ "\n\n" ++ urlPart (some "http://x/a.pdf") ++ "---\n\n" :=
  claim3_amended ⟨"Alpha", some "plain text", some "http://x/a.pdf"⟩ (by decide)

/-- C3 counterexample to the claim as stated: `"[TL;DR:][Summary:]"` parses to
empty tldr and summary fields, yet the rendered section still contains both
the `### TL;DR` and the `### Summary` subheadings. -/
theorem claim3_counterexample :
    (webPaperDict ⟨"T", some "[TL;DR:][Summary:]", none⟩).tldr = "" ∧
    (webPaperDict ⟨"T", some "[TL;DR:][Summary:]", none⟩).summary = "" ∧
    countSub "### TL;DR" (mdFormatPaper ⟨"T", some "[TL;DR:][Summary:]", none⟩) = 1 ∧
    countSub "### Summary" (mdFormatPaper ⟨"T", some "[TL;DR:][Summary:]", none⟩) = 1 := by
  decide

/-- C4 (corrected): the regex substitution is global, so the assigned field
value is obtained by deleting every case-insensitive occurrence of the
label-and-bracket string from the section — the matched prefix and any
occurrence later inside the section body — and then trimming whitespace. -/
theorem claim4_amended (L M b1 b2 : List Char) (d : PaperDict)
    (hL : L.map Char.toLower = "summary:]".toList.map Char.toLower)
    (hM : M.map Char.toLower = "summary:]".toList.map Char.toLower)
    (h1 : noHitB "Summary:]".toList true b1 (M ++ b2) = true)
    (h2 : noHitB "Summary:]".toList true b2 [] = true) :
    extractFieldL "Summary:]" (L ++ (b1 ++ (M ++ b2))) = pyStripL (b1 ++ b2) ∧
    (webApply d (L ++ (b1 ++ (M ++ b2)))).summary = String.mk (pyStripL (b1 ++ b2)) := by
  have hL' : L.map Char.toLower = "Summary:]".toList.map Char.toLower :=
    hL.trans (by decide)
  have hM' : M.map Char.toLower = "Summary:]".toList.map Char.toLower :=
    hM.trans (by decide)
  have hsub : subCI "Summary:]".toList (L ++ (b1 ++ (M ++ b2))) = b1 ++ b2 := by
    rw [subCI,
      scrub_consume "Summary:]".toList true L (b1 ++ (M ++ b2)) (by decide)
        (length_of_lowerEq hL') (by rw [hitAt_true]; exact ciAt_append _ _ _ hL'),
      scrub_walk "Summary:]".toList true b1 (M ++ b2) h1,
      scrub_consume "Summary:]".toList true M b2 (by decide)
        (length_of_lowerEq hM') (by rw [hitAt_true]; exact ciAt_append _ _ _ hM'),
      scrub_id "Summary:]".toList true b2 h2]
  have hs : ciAt "summary:]".toList (L ++ (b1 ++ (M ++ b2))) = true :=
    ciAt_append _ _ _ hL
  have ht : ciAt "topics:]".toList (L ++ (b1 ++ (M ++ b2))) = false :=
    ciAt_false_of_ciAt _ _ _ (by decide) hs
  have htl : ciAt "tl;dr:]".toList (L ++ (b1 ++ (M ++ b2))) = false :=
    ciAt_false_of_ciAt _ _ _ (by decide) hs
  refine ⟨?_, ?_⟩
  · rw [extractFieldL, hsub]
  · rw [webApply, if_neg (by rw [ht]; decide), if_neg (by rw [htl]; decide), if_pos hs,
      extractField, extractFieldL, hsub]

/-- C4 witness: a summary-labeled section whose body repeats the label in a
different casing. -/
theorem claim4_witness :
    extractFieldL "Summary:]"
        ("Summary:]".toList ++ (" a ".toList ++ ("summary:]".toList ++ " b".toList)))
      = pyStripL (" a ".toList ++ " b".toList) ∧
    (webApply ⟨"T", none, [], "", ""⟩
        ("Summary:]".toList ++ (" a ".toList ++ ("summary:]".toList ++ " b".toList)))).summary
      = String.mk (pyStripL (" a ".toList ++ " b".toList)) :=
  claim4_amended "Summary:]".toList "summary:]".toList " a ".toList " b".toList
    ⟨"T", none, [], "", ""⟩ (by decide) (by decide) (by decide) (by decide)

/-- C4 counterexample to the claim as stated: in `"[Summary:] a summary:] b"`
the later in-body occurrence `summary:]` is deleted too, so the parsed value
is `"a  b"`, not the claimed `"a summary:] b"` with the body text kept. -/
theorem claim4_counterexample :
    (webPaperDict ⟨"T", some "[Summary:] a summary:] b", none⟩).summary = "a  b" ∧
    (webPaperDict ⟨"T", some "[Summary:] a summary:] b", none⟩).summary ≠ "a summary:] b" := by
  decide

lemma not_mem_threeSecs {L1 L2 L3 : List Char} (c : Char)
    (k1 : c ∉ L1) (k2 : c ∉ L2) (k3 : c ∉ L3) (kc : ¬(c = '['))
    (m1 : c ∉ " a, b".toList) (m2 : c ∉ " x".toList) (m3 : c ∉ " y".toList) :
    c ∉ threeSecs L1 L2 L3 := by
  rw [threeSecs]
  intro hm
  simp only [List.mem_append, List.mem_cons] at hm
  rcases hm with (hc | (h | h)) | ((hc | (h | h)) | (hc | (h | h)))
  · exact kc hc
  · exact k1 h
  · exact m1 h
  · exact kc hc
  · exact k2 h
  · exact m2 h
  · exact kc hc
  · exact k3 h
  · exact m3 h

/-- C5 (confirmed): a summary of exactly the shape
`[Topics:] a, b[TL;DR:] x[Summary:] y`, with each label in arbitrary casing,
parses to topics `["a", "b"]`, tldr `"x"`, summary `"y"`. -/
theorem claim5_thm (L1 L2 L3 : List Char) (t : String) (u : Option String)
    (h1 : L1.map Char.toLower = "topics:]".toList.map Char.toLower)
    (h2 : L2.map Char.toLower = "tl;dr:]".toList.map Char.toLower)
    (h3 : L3.map Char.toLower = "summary:]".toList.map Char.toLower) :
    webPaperDict ⟨t, some (String.mk (threeSecs L1 L2 L3)), u⟩
      = ⟨t, u, ["a", "b"], "x", "y"⟩ := by
  have star : '*' ∉ threeSecs L1 L2 L3 :=
    not_mem_threeSecs '*' (not_mem_of_lower h1 '*' (by decide))
      (not_mem_of_lower h2 '*' (by decide)) (not_mem_of_lower h3 '*' (by decide))
      (by decide) (by decide) (by decide) (by decide)
  have under : '_' ∉ threeSecs L1 L2 L3 :=
    not_mem_threeSecs '_' (not_mem_of_lower h1 '_' (by decide))
      (not_mem_of_lower h2 '_' (by decide)) (not_mem_of_lower h3 '_' (by decide))
      (by decide) (by decide) (by decide) (by decide)
  have hclean : cleanList (threeSecs L1 L2 L3) = threeSecs L1 L2 L3 := by
    rw [cleanList,
      show removeAll "**".toList (threeSecs L1 L2 L3) = threeSecs L1 L2 L3 from
        scrub_id_head '*' ['*'] _ star]
    exact scrub_id_head '_' ['_'] _ under
  have s1 : '[' ∉ L1 ++ " a, b".toList := by
    intro hm
    rcases List.mem_append.mp hm with h | h
    · exact not_mem_of_lower h1 '[' (by decide) h
    · exact (by decide : '[' ∉ " a, b".toList) h
  have s2 : '[' ∉ L2 ++ " x".toList := by
    intro hm
    rcases List.mem_append.mp hm with h | h
    · exact not_mem_of_lower h2 '[' (by decide) h
    · exact (by decide : '[' ∉ " x".toList) h
  have s3 : '[' ∉ L3 ++ " y".toList := by
    intro hm
    rcases List.mem_append.mp hm with h | h
    · exact not_mem_of_lower h3 '[' (by decide) h
    · exact (by decide : '[' ∉ " y".toList) h
  have hsplit : pySplitChar '[' (threeSecs L1 L2 L3)
      = [[], L1 ++ " a, b".toList, L2 ++ " x".toList, L3 ++ " y".toList] := by
    rw [threeSecs,
      show ('[' :: (L1 ++ " a, b".toList))
          ++ (('[' :: (L2 ++ " x".toList)) ++ ('[' :: (L3 ++ " y".toList)))
        = '[' :: ((L1 ++ " a, b".toList)
          ++ '[' :: ((L2 ++ " x".toList) ++ '[' :: (L3 ++ " y".toList))) from by simp,
      pySplitChar_cons_sep,
      pySplitChar_append '[' _ _ s1,
      pySplitChar_append '[' _ _ s2,
      pySplitChar_of_not_mem '[' _ s3]
  have hne : String.mk (threeSecs L1 L2 L3) ≠ "" := by
    rw [threeSecs, List.cons_append]
    exact mk_ne_empty _ _
  have hsecs : sectionsOfOpt (some (String.mk (threeSecs L1 L2 L3)))
      = [[], L1 ++ " a, b".toList, L2 ++ " x".toList, L3 ++ " y".toList] := by
    rw [sectionsOfOpt, if_neg hne, sectionsOf]
    show pySplitChar '[' (cleanList (threeSecs L1 L2 L3)) = _
    rw [hclean, hsplit]
  have g1 : ciAt "topics:]".toList (L1 ++ " a, b".toList) = true := ciAt_append _ _ _ h1
  have c1 : subCI "Topics:]".toList (L1 ++ " a, b".toList)
      = subCI "Topics:]".toList " a, b".toList := by
    rw [subCI, subCI]
    exact scrub_consume _ true _ _ (by decide) (length_of_lowerEq (h1.trans (by decide)))
      (by rw [hitAt_true]; exact ciAt_append _ _ _ (h1.trans (by decide)))
  have w1 : webApply ⟨t, u, [], "", ""⟩ (L1 ++ " a, b".toList) = ⟨t, u, ["a", "b"], "", ""⟩ := by
    rw [webApply, if_pos g1, webTopics, extractFieldL, c1,
      show splitTopics (pyStripL (subCI "Topics:]".toList " a, b".toList)) = ["a", "b"] from
        by decide]
  have g2t : ciAt "topics:]".toList (L2 ++ " x".toList) = false :=
    ciAt_false_of_ciAt _ _ _ (by decide) (ciAt_append _ _ _ h2)
  have g2 : ciAt "tl;dr:]".toList (L2 ++ " x".toList) = true := ciAt_append _ _ _ h2
  have c2 : subCI "TL;DR:]".toList (L2 ++ " x".toList)
      = subCI "TL;DR:]".toList " x".toList := by
    rw [subCI, subCI]
    exact scrub_consume _ true _ _ (by decide) (length_of_lowerEq (h2.trans (by decide)))
      (by rw [hitAt_true]; exact ciAt_append _ _ _ (h2.trans (by decide)))
  have w2 : webApply ⟨t, u, ["a", "b"], "", ""⟩ (L2 ++ " x".toList)
      = ⟨t, u, ["a", "b"], "x", ""⟩ := by
    rw [webApply, if_neg (by rw [g2t]; decide), if_pos g2, extractField, extractFieldL, c2,
      show String.mk (pyStripL (subCI "TL;DR:]".toList " x".toList)) = "x" from by decide]
  have g3t : ciAt "topics:]".toList (L3 ++ " y".toList) = false :=
    ciAt_false_of_ciAt _ _ _ (by decide) (ciAt_append _ _ _ h3)
  have g3tl : ciAt "tl;dr:]".toList (L3 ++ " y".toList) = false :=
    ciAt_false_of_ciAt _ _ _ (by decide) (ciAt_append _ _ _ h3)
  have g3 : ciAt "summary:]".toList (L3 ++ " y".toList) = true := ciAt_append _ _ _ h3
  have c3 : subCI "Summary:]".toList (L3 ++ " y".toList)
      = subCI "Summary:]".toList " y".toList := by
    rw [subCI, subCI]
    exact scrub_consume _ true _ _ (by decide) (length_of_lowerEq (h3.trans (by decide)))
      (by rw [hitAt_true]; exact ciAt_append _ _ _ (h3.trans (by decide)))
  have w3 : webApply ⟨t, u, ["a", "b"], "x", ""⟩ (L3 ++ " y".toList)
      = ⟨t, u, ["a", "b"], "x", "y"⟩ := by
    rw [webApply, if_neg (by rw [g3t]; decide), if_neg (by rw [g3tl]; decide), if_pos g3,
      extractField, extractFieldL, c3,
      show String.mk (pyStripL (subCI "Summary:]".toList " y".toList)) = "y" from by decide]
  show (sectionsOfOpt (some (String.mk (threeSecs L1 L2 L3)))).foldl webApply
      ⟨t, u, [], "", ""⟩ = _
  rw [hsecs, List.foldl_cons, List.foldl_cons, List.foldl_cons, List.foldl_cons,
    List.foldl_nil, webApply_nil, w1, w2, w3]

/-- C5 witness at one concrete casing of the three labels. -/
theorem claim5_witness :
    webPaperDict ⟨"T",
        some (String.mk (threeSecs "ToPiCs:]".toList "tl;dr:]".toList "SUMMARY:]".toList)),
        none⟩
      = ⟨"T", none, ["a", "b"], "x", "y"⟩ :=
  claim5_thm "ToPiCs:]".toList "tl;dr:]".toList "SUMMARY:]".toList "T" none
    (by decide) (by decide) (by decide)

/-- C6 (confirmed): every renderer variant first sorts the records by
case-insensitive title and then emits one section per record in that order,
so for any input list the per-paper output order is ascending in
`titleKey` regardless of the input order. -/
theorem claim6_thm (papers : List Paper) :
    (pySorted papers).Perm papers ∧
    List.Sorted keyLe (pySorted papers) ∧
    (∀ title now, generate_markdown papers title now
        = mdHeader title now ++ String.join ((pySorted papers).map mdFormatPaper)) ∧
    (∀ title, obs_generate_markdown papers title
        = obsHeader title ++ String.join ((pySorted papers).map obsFormatPaper)) ∧
    webPapersData papers = (pySorted papers).map webPaperDict :=
  ⟨List.perm_insertionSort keyLe papers, List.sorted_insertionSort keyLe papers,
    fun _ _ => rfl, fun _ => rfl, rfl⟩

/-- C7 (confirmed): when the store query returns no records, each exporter
raises the no-records `ValueError` after the single store query, with no
directory creation and no file write in the effect trace. -/
theorem claim7_thm (output_path title now : String) :
    export_to_file_md [] output_path title now
      = (Except.error noRecordsMsg, [Effect.queryStore]) ∧
    export_to_file_obs [] output_path title
      = (Except.error noRecordsMsg, [Effect.queryStore]) ∧
    export_to_file_web [] output_path title
      = (Except.error noRecordsMsg, [Effect.queryStore]) :=
  ⟨rfl, rfl, rfl⟩

/-- C8 (confirmed): `export_papers` with a format selector whose lower-casing
is none of `markdown`/`obsidian`/`html` raises the unsupported-format
`ValueError` with an empty effect trace (no store query, no file I/O), while
each recognized selector delegates to the corresponding exporter. -/
theorem claim8_thm (format output_path title now : String) (storePapers : List Paper)
    (h1 : pyLower format ≠ "markdown") (h2 : pyLower format ≠ "obsidian")
    (h3 : pyLower format ≠ "html") :
    export_papers storePapers format output_path title now
      = (Except.error (unsupportedMsg format), []) ∧
    export_papers storePapers "markdown" output_path title now
      = export_to_file_md storePapers output_path title now ∧
    export_papers storePapers "obsidian" output_path title now
      = export_to_file_obs storePapers output_path title ∧
    export_papers storePapers "html" output_path title now
      = export_to_file_web storePapers output_path title := by
  refine ⟨?_, ?_, ?_, ?_⟩
  · rw [export_papers, if_neg h1, if_neg h2, if_neg h3]
  · rw [export_papers, if_pos (by decide)]
  · rw [export_papers, if_neg (by decide), if_pos (by decide)]
  · rw [export_papers, if_neg (by decide), if_neg (by decide), if_pos (by decide)]

/-- C8 witness at the unrecognized selector `"pdf"`. -/
theorem claim8_witness :
    export_papers [] "pdf" "out.md" "T" "2024-01-01 00:00:00"
      = (Except.error (unsupportedMsg "pdf"), []) ∧
    export_papers [] "markdown" "out.md" "T" "2024-01-01 00:00:00"
      = export_to_file_md [] "out.md" "T" "2024-01-01 00:00:00" ∧
    export_papers [] "obsidian" "out.md" "T" "2024-01-01 00:00:00"
      = export_to_file_obs [] "out.md" "T" ∧
    export_papers [] "html" "out.md" "T" "2024-01-01 00:00:00"
      = export_to_file_web [] "out.md" "T" :=
  claim8_thm "pdf" "out.md" "T" "2024-01-01 00:00:00" []
    (by decide) (by decide) (by decide)

/-- C9 (confirmed): the note-app renderer renders the topics line as the
comma-separated `#`-prefixed slugs of the parsed topics, where slugging
replaces spaces with hyphens, removes apostrophes and lower-cases; both spec
examples render as claimed. -/
theorem claim9_thm :
    (∀ sec : List Char, ciAt "topics:]".toList sec = true →
      obsSection sec = "**Topics:** "
        ++ String.intercalate ", "
            ((splitTopics (extractFieldL "Topics:]" sec)).map obsSlugTag)
        ++ "\n\n") ∧
    obsSlugTag "Graph Neural Networks" = "#graph-neural-networks" ∧
    obsSlugTag "Alice\x27s Method" = "#alices-method" ∧
    obsFormatPaper ⟨"T", some "[Topics:] Graph Neural Networks, Alice\x27s Method", none⟩
      = "---\n\n### T\n\n**Topics:** #graph-neural-networks, #alices-method\n\n" := by
  refine ⟨?_, by decide, by decide, by decide⟩
  intro sec h
  rw [obsSection, if_pos h]

/-- C9 witness: the topics branch applied to a concrete matching section. -/
theorem claim9_witness :
    obsSection "topics:] Graph".toList = "**Topics:** "
      ++ String.intercalate ", "
          ((splitTopics (extractFieldL "Topics:]" "topics:] Graph".toList)).map obsSlugTag)
      ++ "\n\n" :=
  claim9_thm.1 "topics:] Graph".toList (by decide)

/-- C10 (confirmed): in the browsable-page variant a topics section with empty
content yields the one-element topics list `[""]` (splitting the empty string
on commas), and the empty topics list arises only when no candidate section
matches the topics label at all. -/
theorem claim10_thm :
    (webPaperDict ⟨"T", some "[Topics:]", none⟩).topics = [""] ∧
    (∀ (d : PaperDict) (secs : List (List Char)),
      (secs.foldl webApply d).topics = [] →
        d.topics = [] ∧ ∀ sec ∈ secs, ciAt "topics:]".toList sec = false) :=
  ⟨by decide, fun d secs h => foldl_topics_nil secs d h⟩

/-- C10 witness: a fold over one non-matching section that ends with an empty
topics list. -/
theorem claim10_witness :
    (⟨"t", none, [], "", ""⟩ : PaperDict).topics = [] ∧
    ∀ sec ∈ ["abc".toList], ciAt "topics:]".toList sec = false :=
  claim10_thm.2 ⟨"t", none, [], "", ""⟩ ["abc".toList] (by decide)
